import Mathlib

/-!
Verification development for the simulated-portfolio accounting engine
(`src/portfolio.py`, `trade.py`, `web/portfolio_api.py`).

Python floats are modelled as exact rationals (`ℚ`), Python ints as `ℤ`
(share counts) or `ℕ` (tallies).  Python dicts that preserve insertion
order are modelled as association lists `List (String × _)`; lookup,
in-place update and deletion mirror dict semantics (first occurrence of
the key).  JSON documents read back with `.get(key, default)` are
modelled as structures of `Option`-valued fields, with `Option.getD`
playing the role of the defaulting lookup.
-/

set_option maxHeartbeats 1600000

namespace StockSim

/-- `Position` dataclass from `src/portfolio.py` (one symbol's holding). -/
structure Position where
  code : String
  name : String := ""
  shares : ℤ := 0
  cost_price : ℚ := 0
  current_price : ℚ := 0
  buy_date : String := ""
  last_update : String := ""
  notes : String := ""
deriving DecidableEq

/-- `Position.cost_amount`: shares × cost price. -/
def Position.cost_amount (p : Position) : ℚ := (p.shares : ℚ) * p.cost_price

/-- `Position.market_value`: shares × current price. -/
def Position.market_value (p : Position) : ℚ := (p.shares : ℚ) * p.current_price

/-- `Position.profit_loss`: market value − cost amount. -/
def Position.profit_loss (p : Position) : ℚ := p.market_value - p.cost_amount

/-- `Position.profit_loss_pct`: profit/loss ÷ cost amount × 100, 0 when the cost amount is 0. -/
def Position.profit_loss_pct (p : Position) : ℚ :=
  if p.cost_amount = 0 then 0 else p.profit_loss / p.cost_amount * 100

/-- `PortfolioConfig` dataclass from `src/portfolio.py` (account state).
Python field defaults are reproduced; the two timestamp strings are kept verbatim. -/
structure PortfolioConfig where
  initial_capital : ℚ := 100000
  available_cash : ℚ := 100000
  max_single_position_pct : ℚ := 30
  stop_loss_pct : ℚ := 8
  take_profit_pct : ℚ := 20
  max_total_position_pct : ℚ := 80
  commission_rate : ℚ := 3 / 10000
  stamp_duty_rate : ℚ := 1 / 1000
  min_commission : ℚ := 5
  positions : List (String × Position) := []
  created_at : String := ""
  updated_at : String := ""
deriving DecidableEq

/-- `PortfolioConfig.total_cost`: Σ position cost amounts. -/
def PortfolioConfig.total_cost (c : PortfolioConfig) : ℚ :=
  (c.positions.map (fun kp => kp.2.cost_amount)).sum

/-- `PortfolioConfig.total_market_value`: Σ position market values. -/
def PortfolioConfig.total_market_value (c : PortfolioConfig) : ℚ :=
  (c.positions.map (fun kp => kp.2.market_value)).sum

/-- `PortfolioConfig.total_profit_loss`. -/
def PortfolioConfig.total_profit_loss (c : PortfolioConfig) : ℚ :=
  c.total_market_value - c.total_cost

/-- `PortfolioConfig.total_assets`: available cash + total market value. -/
def PortfolioConfig.total_assets (c : PortfolioConfig) : ℚ :=
  c.available_cash + c.total_market_value

/-- `PortfolioConfig.total_return_pct`: relative to initial capital, 0 if that is 0. -/
def PortfolioConfig.total_return_pct (c : PortfolioConfig) : ℚ :=
  if c.initial_capital = 0 then 0
  else (c.total_assets - c.initial_capital) / c.initial_capital * 100

/-- Dict lookup on the ordered positions map (`code in positions` / `positions[code]`). -/
def lookupPos : List (String × Position) → String → Option Position
  | [], _ => none
  | (k, v) :: rest, code => if k = code then some v else lookupPos rest code

/-- In-place value update of an existing key (Python dict assignment keeps the slot). -/
def updatePos : List (String × Position) → String → Position → List (String × Position)
  | [], _, _ => []
  | (k, v) :: rest, code, p =>
    if k = code then (k, p) :: rest else (k, v) :: updatePos rest code p

/-- Deletion of a key (`del positions[code]`). -/
def erasePos : List (String × Position) → String → List (String × Position)
  | [], _ => []
  | (k, v) :: rest, code => if k = code then rest else (k, v) :: erasePos rest code

/-- First whitespace-separated token of a timestamp (`now.split()[0]` in Python). -/
def firstWord (s : String) : String := ((s.splitOn " ").headD "")

/-- `PortfolioManager.add_position` from `src/portfolio.py` (lines 283–328).
If the symbol exists, accumulates shares and recomputes the cost price as
(old cost amount + shares×price) ÷ (old shares + shares) when the new share
total is positive, and overwrites the note only when non-empty; otherwise
creates a new `Position`.  The wall-clock timestamp is passed in as `now`. -/
def add_position (st : PortfolioConfig) (code name : String) (shares : ℤ)
    (cost_price : ℚ) (notes : String) (now : String) : PortfolioConfig :=
  match lookupPos st.positions code with
  | some pos =>
    let total_cost := pos.cost_amount + (shares : ℚ) * cost_price
    let total_shares := pos.shares + shares
    let pos' : Position :=
      { pos with
        cost_price := if 0 < total_shares then total_cost / (total_shares : ℚ)
                      else pos.cost_price
        shares := total_shares
        last_update := now
        notes := if notes ≠ "" then notes else pos.notes }
    { st with positions := updatePos st.positions code pos' }
  | none =>
    { st with positions := st.positions ++
        [(code, { code := code, name := name, shares := shares,
                  cost_price := cost_price, current_price := 0,
                  buy_date := firstWord now, last_update := now,
                  notes := notes })] }

/-- The two failure branches of `PortfolioManager.reduce_position`
(the code logs a distinct warning for each and returns `False`). -/
inductive ReduceError where
  | unknownSymbol
  | insufficientShares
deriving DecidableEq

/-- `PortfolioManager.reduce_position` from `src/portfolio.py` (lines 330–371).
Returns the post-call account state together with either the specific
failure or the realized net profit the code computes and logs.
On failure the state is returned untouched (the Python code returns
before mutating anything). -/
def reduce_position (st : PortfolioConfig) (code : String) (shares : ℤ)
    (sell_price : ℚ) (now : String) : PortfolioConfig × Except ReduceError ℚ :=
  match lookupPos st.positions code with
  | none => (st, .error .unknownSymbol)
  | some pos =>
    if pos.shares < shares then (st, .error .insufficientShares)
    else
      let sell_amount := (shares : ℚ) * sell_price
      let cost := (shares : ℚ) * pos.cost_price
      let profit := sell_amount - cost
      let commission := max (sell_amount * st.commission_rate) st.min_commission
      let stamp_duty := sell_amount * st.stamp_duty_rate
      let net_profit := profit - commission - stamp_duty
      let pos' : Position := { pos with shares := pos.shares - shares, last_update := now }
      let positions' :=
        if pos'.shares = 0 then erasePos (updatePos st.positions code pos') code
        else updatePos st.positions code pos'
      ({ st with positions := positions'
                 available_cash := st.available_cash + (sell_amount - commission - stamp_duty) },
       .ok net_profit)

/-- `PortfolioManager.update_prices` from `src/portfolio.py` (lines 373–385):
updates current price (and timestamp) of each quoted symbol that is held. -/
def update_prices (st : PortfolioConfig) (prices : List (String × ℚ)) (now : String) :
    PortfolioConfig :=
  prices.foldl
    (fun s cp =>
      match lookupPos s.positions cp.1 with
      | some pos =>
        let pos' : Position := { pos with current_price := cp.2, last_update := now }
        { s with positions := updatePos s.positions cp.1 pos' }
      | none => s)
    st

/-- A persisted position record (one value of the `positions` mapping in
`portfolio.json`); each field may be absent, as read back by `dict.get`. -/
structure PosDict where
  code : Option String := none
  name : Option String := none
  shares : Option ℤ := none
  cost_price : Option ℚ := none
  current_price : Option ℚ := none
  buy_date : Option String := none
  last_update : Option String := none
  notes : Option String := none
deriving DecidableEq

/-- `Position.to_dict` from `src/portfolio.py` (lines 86–97): writes every field. -/
def Position.to_dict (p : Position) : PosDict :=
  { code := some p.code, name := some p.name, shares := some p.shares,
    cost_price := some p.cost_price, current_price := some p.current_price,
    buy_date := some p.buy_date, last_update := some p.last_update,
    notes := some p.notes }

/-- `Position.from_dict` from `src/portfolio.py` (lines 99–111): every field is
read with `data.get(key, default)`, the numeric defaults being 0. -/
def Position.from_dict (d : PosDict) : Position :=
  { code := d.code.getD "", name := d.name.getD "", shares := d.shares.getD 0,
    cost_price := d.cost_price.getD 0, current_price := d.current_price.getD 0,
    buy_date := d.buy_date.getD "", last_update := d.last_update.getD "",
    notes := d.notes.getD "" }

/-- The persisted account document (`portfolio.json`), fields optional. -/
structure ConfigDict where
  initial_capital : Option ℚ := none
  available_cash : Option ℚ := none
  max_single_position_pct : Option ℚ := none
  stop_loss_pct : Option ℚ := none
  take_profit_pct : Option ℚ := none
  max_total_position_pct : Option ℚ := none
  commission_rate : Option ℚ := none
  stamp_duty_rate : Option ℚ := none
  min_commission : Option ℚ := none
  positions : Option (List (String × PosDict)) := none
  created_at : Option String := none
  updated_at : Option String := none
deriving DecidableEq

/-- `PortfolioConfig.to_dict` from `src/portfolio.py` (lines 187–202). -/
def PortfolioConfig.to_dict (c : PortfolioConfig) : ConfigDict :=
  { initial_capital := some c.initial_capital,
    available_cash := some c.available_cash,
    max_single_position_pct := some c.max_single_position_pct,
    stop_loss_pct := some c.stop_loss_pct,
    take_profit_pct := some c.take_profit_pct,
    max_total_position_pct := some c.max_total_position_pct,
    commission_rate := some c.commission_rate,
    stamp_duty_rate := some c.stamp_duty_rate,
    min_commission := some c.min_commission,
    positions := some (c.positions.map (fun kp => (kp.1, kp.2.to_dict))),
    created_at := some c.created_at,
    updated_at := some c.updated_at }

/-- `PortfolioConfig.from_dict` from `src/portfolio.py` (lines 204–224).
`now` stands for `datetime.now()` in the dataclass `__post_init__`, which
fills an empty `created_at` and always refreshes `updated_at`. -/
def PortfolioConfig.from_dict (d : ConfigDict) (now : String) : PortfolioConfig :=
  { initial_capital := d.initial_capital.getD 100000,
    available_cash := d.available_cash.getD 100000,
    max_single_position_pct := d.max_single_position_pct.getD 30,
    stop_loss_pct := d.stop_loss_pct.getD 8,
    take_profit_pct := d.take_profit_pct.getD 20,
    max_total_position_pct := d.max_total_position_pct.getD 80,
    commission_rate := d.commission_rate.getD (3 / 10000),
    stamp_duty_rate := d.stamp_duty_rate.getD (1 / 1000),
    min_commission := d.min_commission.getD 5,
    positions := (d.positions.getD []).map (fun kp => (kp.1, Position.from_dict kp.2)),
    created_at := if (d.created_at.getD "") = "" then now else d.created_at.getD "",
    updated_at := now }

/-- One row of the dashboard's `position_list`
(`PortfolioAPI.get_dashboard_data`, `web/portfolio_api.py` lines 70–92). -/
structure DashPos where
  code : String
  name : String
  shares : ℤ
  cost_price : ℚ
  current_price : ℚ
  market_value : ℚ
  profit_loss : ℚ
  profit_loss_pct : ℚ
deriving DecidableEq

/-- Per-position computation of the dashboard loop
(`web/portfolio_api.py` lines 70–92): a missing `current_price` falls back
to the (defaulted) `cost_price`. -/
def dashPosition (code : String) (pos : PosDict) : DashPos :=
  let shares := pos.shares.getD 0
  let cost_price := pos.cost_price.getD 0
  let current_price := pos.current_price.getD cost_price
  let market_value := (shares : ℚ) * current_price
  let cost_amount := (shares : ℚ) * cost_price
  let profit_loss := market_value - cost_amount
  { code := code, name := pos.name.getD "", shares := shares,
    cost_price := cost_price, current_price := current_price,
    market_value := market_value, profit_loss := profit_loss,
    profit_loss_pct := if 0 < cost_amount then profit_loss / cost_amount * 100 else 0 }

/-- The `summary`/`positions` part of the dashboard payload. -/
structure DashData where
  initial_capital : ℚ
  available_cash : ℚ
  total_market_value : ℚ
  total_cost : ℚ
  total_assets : ℚ
  total_profit_loss : ℚ
  total_return_pct : ℚ
  position_ratio : ℚ
  position_list : List DashPos
deriving DecidableEq

/-- `PortfolioAPI.get_dashboard_data` from `web/portfolio_api.py` (lines 54–97),
restricted to the fields computed from the portfolio document (the snapshot-
and trade-derived fields of the payload read other documents and are
independent of these).  Missing top-level numeric fields default to 0; the
loop's running totals are written as sums over the position mapping. -/
def get_dashboard_data (portfolio : ConfigDict) : DashData :=
  let positions := portfolio.positions.getD []
  let initial_capital := portfolio.initial_capital.getD 0
  let available_cash := portfolio.available_cash.getD 0
  let position_list := positions.map (fun kp => dashPosition kp.1 kp.2)
  let total_market_value := (position_list.map (fun q => q.market_value)).sum
  let total_cost := (position_list.map (fun q => (q.shares : ℚ) * q.cost_price)).sum
  let total_assets := available_cash + total_market_value
  { initial_capital := initial_capital,
    available_cash := available_cash,
    total_market_value := total_market_value,
    total_cost := total_cost,
    total_assets := total_assets,
    total_profit_loss := total_market_value - total_cost,
    total_return_pct :=
      if 0 < initial_capital then (total_assets - initial_capital) / initial_capital * 100 else 0,
    position_ratio :=
      if 0 < total_assets then total_market_value / total_assets * 100 else 0,
    position_list := position_list }

/-- One value of the persisted snapshot mapping (`daily_snapshots.json`),
as read back field-by-field with `dict.get` in `web/portfolio_api.py`. -/
structure SnapDict where
  total_assets : Option ℚ := none
  daily_profit_loss : Option ℚ := none
  daily_return_pct : Option ℚ := none
  positions_snapshot : Option (List (String × PosDict)) := none
deriving DecidableEq

/-- One graded record of `PortfolioAPI.get_ai_accuracy`
(`web/portfolio_api.py` lines 199–206). -/
structure AccRecord where
  date : String
  next_date : String
  prediction : String
  next_day_return : ℚ
  is_correct : Bool
  total_assets : ℚ
deriving DecidableEq

/-- The grading loop of `PortfolioAPI.get_ai_accuracy`
(`web/portfolio_api.py` lines 171–206), taken over the snapshot series in
ascending date order (the code iterates `sorted(snapshots.keys())`,
excluding the last date).  A record is emitted for a date exactly when its
assets are positive and its `positions_snapshot` is non-empty; it is
correct exactly when the next-day return is positive. -/
def accuracy_records : List (String × SnapDict) → List AccRecord
  | (d1, s1) :: (d2, s2) :: rest =>
    (let current_assets := s1.total_assets.getD 0
     let next_assets := s2.total_assets.getD 0
     if 0 < current_assets then
       if 0 < (s1.positions_snapshot.getD []).length then
         [{ date := d1, next_date := d2, prediction := "持有",
            next_day_return := (next_assets - current_assets) / current_assets * 100,
            is_correct := decide (0 < (next_assets - current_assets) / current_assets * 100),
            total_assets := current_assets }]
       else []
     else [])
    ++ accuracy_records ((d2, s2) :: rest)
  | _ => []

/-- `total_predictions`: the counter is incremented exactly once per emitted
record, so it equals the record count. -/
def total_predictions (l : List (String × SnapDict)) : ℕ := (accuracy_records l).length

/-- `correct_predictions`: incremented exactly for the records graded correct. -/
def correct_predictions (l : List (String × SnapDict)) : ℕ :=
  ((accuracy_records l).filter (fun r => r.is_correct)).length

/-- `accuracy_rate` (`web/portfolio_api.py` line 208):
`correct / total * 100` when any prediction exists, else 0. -/
def accuracy_rate (l : List (String × SnapDict)) : ℚ :=
  if 0 < total_predictions l then
    (correct_predictions l : ℚ) / (total_predictions l : ℚ) * 100
  else 0

/-- One `monthly_stats` update step (`web/portfolio_api.py` lines 214–218):
initialise the month's tallies on first sight, then bump `total` and,
when the record was correct, `correct`. -/
def bumpMonth : List (String × ℕ × ℕ) → String → Bool → List (String × ℕ × ℕ)
  | [], month, correct => [(month, 1, if correct then 1 else 0)]
  | (m, t, c) :: rest, month, correct =>
    if m = month then (m, t + 1, if correct then c + 1 else c) :: rest
    else (m, t, c) :: bumpMonth rest month correct

/-- `monthly_stats` (`web/portfolio_api.py` lines 211–218): fold over the
graded records, keyed by the `YYYY-MM` prefix (`record["date"][:7]`). -/
def monthly_stats (records : List AccRecord) : List (String × ℕ × ℕ) :=
  records.foldl (fun acc r => bumpMonth acc (r.date.take 7) r.is_correct) []

/-- Read a month's `(total, correct)` tallies, `(0, 0)` when the month is absent. -/
def monthGet : List (String × ℕ × ℕ) → String → ℕ × ℕ
  | [], _ => (0, 0)
  | (m, t, c) :: rest, month => if m = month then (t, c) else monthGet rest month

/-- A recorded daily snapshot (the fields printed by the `snapshot`
subcommand of `trade.py`, lines 151–158, plus the position copy). -/
structure DailySnapshot where
  date : String
  total_assets : ℚ
  daily_profit_loss : ℚ
  daily_return_pct : ℚ
  total_return_pct : ℚ
  positions_snapshot : List (String × Position)
deriving DecidableEq

/-- Modelled from the spec: `PortfolioManager.take_daily_snapshot` is invoked
by `trade.py` (snapshot subcommand) but its definition is not under `src/`.
Spec §4.4: read the previous day's snapshot if one exists; daily profit/loss
= today's total assets − previous total assets and daily return % = daily
profit/loss ÷ previous total assets (as a percentage), both 0 when there is
no previous snapshot or the previous total assets is 0; write today's entry
with a copy of the current position set. -/
def take_daily_snapshot (prev : Option DailySnapshot) (st : PortfolioConfig)
    (today : String) : DailySnapshot :=
  let assets := st.total_assets
  match prev with
  | none =>
    { date := today, total_assets := assets, daily_profit_loss := 0,
      daily_return_pct := 0, total_return_pct := st.total_return_pct,
      positions_snapshot := st.positions }
  | some p =>
    if p.total_assets = 0 then
      { date := today, total_assets := assets, daily_profit_loss := 0,
        daily_return_pct := 0, total_return_pct := st.total_return_pct,
        positions_snapshot := st.positions }
    else
      { date := today, total_assets := assets,
        daily_profit_loss := assets - p.total_assets,
        daily_return_pct := (assets - p.total_assets) / p.total_assets * 100,
        total_return_pct := st.total_return_pct,
        positions_snapshot := st.positions }

/-- The journal's trade record (fields printed by `trade.py`, lines 98–108). -/
structure Trade where
  date : String
  time : String
  code : String
  name : String
  action : String
  shares : ℤ
  price : ℚ
  amount : ℚ
  commission : ℚ
  stamp_duty : ℚ
  reason : String
deriving DecidableEq

/-- Failure kinds of the trade journal (spec §7). -/
inductive TradeError where
  | insufficientCash
  | unknownSymbol
  | insufficientShares
deriving DecidableEq

/-- Modelled from the spec: `PortfolioManager.record_trade` is invoked by
`trade.py` (buy/sell/add/reduce subcommands) but its definition is not under
`src/`.  Spec §4.2: for buy/add, amount = shares×price and commission =
max(amount×commission rate, minimum commission), stamp duty 0; the trade is
rejected with `InsufficientCash`, before any state mutation, when paying
amount + commission would drive available cash negative; otherwise the
ledger acquire (`add_position`) runs and available cash is decremented by
amount + commission.  For sell/reduce, `reduce_position` itself applies the
fees and credits cash. -/
def record_trade (st : PortfolioConfig) (code name action : String) (shares : ℤ)
    (price : ℚ) (reason date time now : String) :
    Except TradeError (PortfolioConfig × Trade) :=
  let amount := (shares : ℚ) * price
  if action = "buy" ∨ action = "add" then
    let commission := max (amount * st.commission_rate) st.min_commission
    if st.available_cash - (amount + commission) < 0 then .error .insufficientCash
    else
      let st' := add_position st code name shares price reason now
      .ok ({ st' with available_cash := st'.available_cash - (amount + commission) },
           { date := date, time := time, code := code, name := name,
             action := action, shares := shares, price := price, amount := amount,
             commission := commission, stamp_duty := 0, reason := reason })
  else
    match reduce_position st code shares price now with
    | (_, .error .unknownSymbol) => .error .unknownSymbol
    | (_, .error .insufficientShares) => .error .insufficientShares
    | (st', .ok _) =>
      .ok (st',
           { date := date, time := time, code := code, name := name,
             action := action, shares := shares, price := price, amount := amount,
             commission := max (amount * st.commission_rate) st.min_commission,
             stamp_duty := amount * st.stamp_duty_rate, reason := reason })

/-! ### Association-list helper lemmas -/

theorem lookupPos_mem : ∀ {l : List (String × Position)} {k : String} {p : Position},
    lookupPos l k = some p → (k, p) ∈ l
  | [], _, _, h => by simp [lookupPos] at h
  | (k1, v1) :: rest, k, p, h => by
    by_cases hk : k1 = k
    · rw [lookupPos, if_pos hk] at h
      injection h with h
      subst h; subst hk
      exact List.mem_cons_self _ _
    · rw [lookupPos, if_neg hk] at h
      exact List.mem_cons_of_mem _ (lookupPos_mem h)

theorem mem_updatePos : ∀ {l : List (String × Position)} {k : String} {v : Position}
    {kp : String × Position}, kp ∈ updatePos l k v → kp ∈ l ∨ kp = (k, v)
  | [], _, _, _, h => by simp [updatePos] at h
  | (k1, v1) :: rest, k, v, kp, h => by
    by_cases hk : k1 = k
    · rw [updatePos, if_pos hk] at h
      rcases List.mem_cons.mp h with h | h
      · right; rw [h, hk]
      · exact Or.inl (List.mem_cons_of_mem _ h)
    · rw [updatePos, if_neg hk] at h
      rcases List.mem_cons.mp h with h | h
      · left; rw [h]; exact List.mem_cons_self _ _
      · rcases mem_updatePos h with h' | h'
        · exact Or.inl (List.mem_cons_of_mem _ h')
        · exact Or.inr h'

theorem mem_erasePos : ∀ {l : List (String × Position)} {k : String}
    {kp : String × Position}, kp ∈ erasePos l k → kp ∈ l
  | [], _, _, h => by simp [erasePos] at h
  | (k1, v1) :: rest, k, kp, h => by
    by_cases hk : k1 = k
    · rw [erasePos, if_pos hk] at h
      exact List.mem_cons_of_mem _ h
    · rw [erasePos, if_neg hk] at h
      rcases List.mem_cons.mp h with h | h
      · rw [h]; exact List.mem_cons_self _ _
      · exact List.mem_cons_of_mem _ (mem_erasePos h)

theorem erasePos_updatePos : ∀ (l : List (String × Position)) (k : String) (v : Position),
    erasePos (updatePos l k v) k = erasePos l k
  | [], _, _ => rfl
  | (k1, v1) :: rest, k, v => by
    by_cases hk : k1 = k
    · rw [updatePos, if_pos hk, erasePos, if_pos hk, erasePos, if_pos hk]
    · rw [updatePos, if_neg hk, erasePos, if_neg hk, erasePos, if_neg hk,
        erasePos_updatePos rest k v]

theorem lookupPos_updatePos_self : ∀ {l : List (String × Position)} {k : String}
    {p : Position} (v : Position), lookupPos l k = some p →
    lookupPos (updatePos l k v) k = some v
  | [], _, _, _, h => by simp [lookupPos] at h
  | (k1, v1) :: rest, k, p, v, h => by
    by_cases hk : k1 = k
    · rw [updatePos, if_pos hk, lookupPos, if_pos hk]
    · rw [lookupPos, if_neg hk] at h
      rw [updatePos, if_neg hk, lookupPos, if_neg hk,
        lookupPos_updatePos_self v h]

theorem lookupPos_append_none : ∀ {l : List (String × Position)} {k : String}
    (v : Position), lookupPos l k = none →
    lookupPos (l ++ [(k, v)]) k = some v
  | [], k, v, _ => by simp [lookupPos]
  | (k1, v1) :: rest, k, v, h => by
    by_cases hk : k1 = k
    · rw [lookupPos, if_pos hk] at h
      exact absurd h (by simp)
    · rw [lookupPos, if_neg hk] at h
      rw [List.cons_append, lookupPos, if_neg hk, lookupPos_append_none v h]

/-! ### C2 — failed disposals leave the state untouched and name the reason -/

/-- C2: a disposal of an unheld symbol reports `UnknownSymbol`, and a disposal
requesting more shares than held reports `InsufficientShares`; in both cases
the returned account state — positions map and available cash included — is
exactly the pre-call state (no partial mutation). -/
theorem reduce_position_rejects_invalid (st : PortfolioConfig) (code : String)
    (shares : ℤ) (sell_price : ℚ) (now : String) :
    (lookupPos st.positions code = none →
      reduce_position st code shares sell_price now = (st, .error .unknownSymbol)) ∧
    (∀ p, lookupPos st.positions code = some p → p.shares < shares →
      reduce_position st code shares sell_price now = (st, .error .insufficientShares)) := by
  constructor
  · intro h
    simp [reduce_position, h]
  · intro p hp hlt
    simp [reduce_position, hp, if_pos hlt]

/-- A concrete position held at 100 shares, used by several witnesses. -/
def posW : Position := { code := "AAA", name := "Widget", shares := 100, cost_price := 2 }

/-- A concrete account holding only `posW`, used by several witnesses. -/
def stW : PortfolioConfig := { positions := [("AAA", posW)] }

/-- Witness for C2 at a concrete account: `"BBB"` is not held and `"AAA"`
holds only 100 shares, so selling 200 of either fails as stated. -/
theorem reduce_position_rejects_invalid_witness :
    (lookupPos stW.positions "BBB" = none) ∧
    (lookupPos stW.positions "AAA" = some posW) ∧ (posW.shares < 200) ∧
    (reduce_position stW "BBB" 200 3 "t" = (stW, .error .unknownSymbol)) ∧
    (reduce_position stW "AAA" 200 3 "t" = (stW, .error .insufficientShares)) :=
  ⟨by decide, by decide, by decide,
   (reduce_position_rejects_invalid stW "BBB" 200 3 "t").1 (by decide),
   (reduce_position_rejects_invalid stW "AAA" 200 3 "t").2 posW (by decide) (by decide)⟩

/-! ### C4 — validated disposal: cash credit and realized net profit -/

/-- C4: for a validated disposal of `n` shares of a held symbol at price `p`
(`0 < n ≤` held shares), available cash is credited by exactly
`n·p − max(n·p·commission_rate, min_commission) − n·p·stamp_duty_rate`, and
the reported net profit is `(n·p − n·cost_price) − commission − stamp duty`,
the cost being taken at the pre-disposal weighted-average cost price. -/
theorem reduce_position_cash_and_profit (st : PortfolioConfig) (code : String)
    (n : ℤ) (p : ℚ) (now : String) (pos : Position)
    (hp : lookupPos st.positions code = some pos)
    (h0 : 0 < n) (hle : n ≤ pos.shares) :
    (reduce_position st code n p now).1.available_cash
      = st.available_cash +
        ((n : ℚ) * p - max ((n : ℚ) * p * st.commission_rate) st.min_commission
          - (n : ℚ) * p * st.stamp_duty_rate) ∧
    (reduce_position st code n p now).2
      = .ok (((n : ℚ) * p - (n : ℚ) * pos.cost_price)
          - max ((n : ℚ) * p * st.commission_rate) st.min_commission
          - (n : ℚ) * p * st.stamp_duty_rate) := by
  have hnlt : ¬ pos.shares < n := not_lt.mpr hle
  rw [reduce_position, hp]
  simp only [if_neg hnlt]
  exact ⟨trivial, trivial⟩

/-- Witness for C4: selling 40 of the 100 held shares of `"AAA"` at price 3. -/
theorem reduce_position_cash_and_profit_witness :
    (lookupPos stW.positions "AAA" = some posW) ∧ ((0 : ℤ) < 40) ∧ ((40 : ℤ) ≤ posW.shares) ∧
    ((reduce_position stW "AAA" 40 3 "t").1.available_cash
      = stW.available_cash +
        ((40 : ℚ) * 3 - max ((40 : ℚ) * 3 * stW.commission_rate) stW.min_commission
          - (40 : ℚ) * 3 * stW.stamp_duty_rate) ∧
     (reduce_position stW "AAA" 40 3 "t").2
      = .ok (((40 : ℚ) * 3 - (40 : ℚ) * posW.cost_price)
          - max ((40 : ℚ) * 3 * stW.commission_rate) stW.min_commission
          - (40 : ℚ) * 3 * stW.stamp_duty_rate)) :=
  ⟨by decide, by decide, by decide,
   reduce_position_cash_and_profit stW "AAA" 40 3 "t" posW (by decide) (by decide) (by decide)⟩

/-! ### C1 — weighted-average cost over a sequence of acquisitions -/

/-- Fold a sequence of `(shares, price)` acquisitions of one symbol through
`add_position`. -/
def applyAcquisitions (st : PortfolioConfig) (code name notes now : String)
    (l : List (ℤ × ℚ)) : PortfolioConfig :=
  l.foldl (fun s x => add_position s code name x.1 x.2 notes now) st

theorem applyAcquisitions_cons (st : PortfolioConfig) (code name notes now : String)
    (x : ℤ × ℚ) (l : List (ℤ × ℚ)) :
    applyAcquisitions st code name notes now (x :: l)
      = applyAcquisitions (add_position st code name x.1 x.2 notes now)
          code name notes now l := rfl

/-- The record produced by the existing-symbol branch of `add_position`. -/
def acquireUpdate (p : Position) (shares : ℤ) (cost_price : ℚ)
    (notes now : String) : Position :=
  { p with
    cost_price := if 0 < p.shares + shares
                  then (p.cost_amount + (shares : ℚ) * cost_price)
                         / ((p.shares + shares : ℤ) : ℚ)
                  else p.cost_price
    shares := p.shares + shares
    last_update := now
    notes := if notes ≠ "" then notes else p.notes }

/-- Unfolding of `add_position` when the symbol is already held. -/
theorem add_position_of_lookup (st : PortfolioConfig) (code name : String)
    (shares : ℤ) (cost_price : ℚ) (notes now : String) (p : Position)
    (hp : lookupPos st.positions code = some p) :
    add_position st code name shares cost_price notes now =
      { st with positions :=
          updatePos st.positions code (acquireUpdate p shares cost_price notes now) } := by
  rw [add_position, hp]
  rfl

/-- Unfolding of `add_position` when the symbol is absent: a fresh row is appended. -/
theorem add_position_of_none (st : PortfolioConfig) (code name : String)
    (shares : ℤ) (cost_price : ℚ) (notes now : String)
    (hp : lookupPos st.positions code = none) :
    add_position st code name shares cost_price notes now =
      { st with positions := st.positions ++
          [(code, { code := code, name := name, shares := shares,
                    cost_price := cost_price, current_price := 0,
                    buy_date := firstWord now, last_update := now,
                    notes := notes })] } := by
  rw [add_position, hp]

/-- Invariant of the acquisition fold: starting from a held position with
positive share count, each acquisition with positive share count adds its
shares to the share total and its cost to the position's cost amount. -/
theorem applyAcquisitions_invariant (code name notes now : String) :
    ∀ (l : List (ℤ × ℚ)) (s : PortfolioConfig) (p : Position),
    (∀ x ∈ l, 0 < x.1) →
    lookupPos s.positions code = some p → 0 < p.shares →
    ∃ q, lookupPos (applyAcquisitions s code name notes now l).positions code = some q ∧
      q.shares = p.shares + (l.map (fun x => x.1)).sum ∧
      (q.shares : ℚ) * q.cost_price
        = (p.shares : ℚ) * p.cost_price + (l.map (fun x => (x.1 : ℚ) * x.2)).sum := by
  intro l
  induction l with
  | nil =>
    intro s p _ hp _
    exact ⟨p, hp, by simp, by simp⟩
  | cons x rest ih =>
    intro s p hall hp hps
    have hx : 0 < x.1 := hall x (List.mem_cons_self _ _)
    have hrest : ∀ y ∈ rest, 0 < y.1 := fun y hy => hall y (List.mem_cons_of_mem _ hy)
    have hts : 0 < p.shares + x.1 := add_pos hps hx
    have hne : ((p.shares + x.1 : ℤ) : ℚ) ≠ 0 := by
      exact_mod_cast ne_of_gt hts
    have hp' : lookupPos (add_position s code name x.1 x.2 notes now).positions code
        = some (acquireUpdate p x.1 x.2 notes now) := by
      rw [add_position_of_lookup s code name x.1 x.2 notes now p hp]
      exact lookupPos_updatePos_self _ hp
    have hshares' : (acquireUpdate p x.1 x.2 notes now).shares = p.shares + x.1 := rfl
    have hts' : 0 < (acquireUpdate p x.1 x.2 notes now).shares := by rw [hshares']; exact hts
    have hcp' : (acquireUpdate p x.1 x.2 notes now).cost_price
        = (p.cost_amount + (x.1 : ℚ) * x.2) / ((p.shares + x.1 : ℤ) : ℚ) := by
      rw [acquireUpdate, if_pos hts]
    rw [applyAcquisitions_cons]
    obtain ⟨q, hq, hsh, hcost⟩ :=
      ih (add_position s code name x.1 x.2 notes now) _ hrest hp' hts'
    refine ⟨q, hq, ?_, ?_⟩
    · rw [hsh, hshares']
      simp only [List.map_cons, List.sum_cons]
      ring
    · rw [hcost, hshares', hcp']
      simp only [List.map_cons, List.sum_cons]
      have hamt : ((p.shares + x.1 : ℤ) : ℚ)
          * ((p.cost_amount + (x.1 : ℚ) * x.2) / ((p.shares + x.1 : ℤ) : ℚ))
          = (p.shares : ℚ) * p.cost_price + (x.1 : ℚ) * x.2 := by
        rw [mul_comm, div_mul_cancel₀ _ hne, Position.cost_amount]
      push_cast at hamt ⊢
      rw [hamt]
      ring

/-- Folding a non-empty list of positive-share acquisitions of an absent
symbol yields a position whose share count is the total share count and
whose cost price is the quantity-weighted average price. -/
theorem applyAcquisitions_weighted (st : PortfolioConfig)
    (code name notes now : String) (l : List (ℤ × ℚ))
    (hne : l ≠ []) (hall : ∀ x ∈ l, 0 < x.1)
    (habs : lookupPos st.positions code = none) :
    ∃ p, lookupPos (applyAcquisitions st code name notes now l).positions code = some p ∧
      p.shares = (l.map (fun x => x.1)).sum ∧
      p.cost_price = (l.map (fun x => (x.1 : ℚ) * x.2)).sum
        / (((l.map (fun x => x.1)).sum : ℤ) : ℚ) := by
  match l, hne with
  | x :: rest, _ =>
    have hx : 0 < x.1 := hall x (List.mem_cons_self _ _)
    have hrest : ∀ y ∈ rest, 0 < y.1 := fun y hy => hall y (List.mem_cons_of_mem _ hy)
    have hstep := add_position_of_none st code name x.1 x.2 notes now habs
    have hp0 : lookupPos (add_position st code name x.1 x.2 notes now).positions code
        = some { code := code, name := name, shares := x.1, cost_price := x.2,
                 current_price := 0, buy_date := firstWord now, last_update := now,
                 notes := notes } := by
      rw [hstep]
      exact lookupPos_append_none _ habs
    rw [applyAcquisitions_cons]
    obtain ⟨q, hq, hsh, hcost⟩ :=
      applyAcquisitions_invariant code name notes now rest
        (add_position st code name x.1 x.2 notes now) _ hrest hp0 hx
    have hsum : 0 < x.1 + (rest.map (fun x => x.1)).sum := by
      have : 0 ≤ (rest.map (fun x => x.1)).sum :=
        List.sum_nonneg (by
          intro a ha
          obtain ⟨y, hy, rfl⟩ := List.mem_map.mp ha
          exact le_of_lt (hrest y hy))
      linarith
    have hshl : q.shares = ((x :: rest).map (fun x => x.1)).sum := by
      rw [hsh]; simp
    have hqpos : 0 < q.shares := by rw [hshl]; simpa using hsum
    have hqne : (q.shares : ℚ) ≠ 0 := by exact_mod_cast ne_of_gt hqpos
    refine ⟨q, hq, hshl, ?_⟩
    have hcl : (q.shares : ℚ) * q.cost_price
        = ((x :: rest).map (fun x => (x.1 : ℚ) * x.2)).sum := by
      rw [hcost]; simp
    rw [← hshl]
    exact eq_div_of_mul_eq hqne (by rw [mul_comm] at hcl; exact hcl)

/-- C1: over any non-empty sequence of acquisitions of a single absent symbol,
each with positive shares and non-negative price, the resulting cost price is
Σ(sharesᵢ·priceᵢ) ÷ Σ(sharesᵢ), and any permutation of the sequence produces
the same cost price. -/
theorem add_position_weighted_average (st : PortfolioConfig)
    (code name notes now : String) (l l' : List (ℤ × ℚ))
    (hne : l ≠ []) (hall : ∀ x ∈ l, 0 < x.1 ∧ 0 ≤ x.2) (hperm : l.Perm l')
    (habs : lookupPos st.positions code = none) :
    ∃ p p',
      lookupPos (applyAcquisitions st code name notes now l).positions code = some p ∧
      lookupPos (applyAcquisitions st code name notes now l').positions code = some p' ∧
      p.cost_price = (l.map (fun x => (x.1 : ℚ) * x.2)).sum
        / (((l.map (fun x => x.1)).sum : ℤ) : ℚ) ∧
      p'.cost_price = p.cost_price := by
  have hall1 : ∀ x ∈ l, 0 < x.1 := fun x hx => (hall x hx).1
  have hall1' : ∀ x ∈ l', 0 < x.1 := fun x hx => hall1 x (hperm.mem_iff.mpr hx)
  have hne' : l' ≠ [] := by
    intro h
    exact hne (List.eq_nil_of_length_eq_zero (by rw [hperm.length_eq, h]; rfl))
  obtain ⟨p, hp, hpsh, hpc⟩ :=
    applyAcquisitions_weighted st code name notes now l hne hall1 habs
  obtain ⟨p', hp', hpsh', hpc'⟩ :=
    applyAcquisitions_weighted st code name notes now l' hne' hall1' habs
  refine ⟨p, p', hp, hp', hpc, ?_⟩
  rw [hpc, hpc', (hperm.map (fun x => (x.1 : ℚ) * x.2)).sum_eq,
    (hperm.map (fun x => x.1)).sum_eq]

/-- Witness for C1: buying 1000 shares at 1 and then 500 shares at 4 of a
fresh symbol, in either order, gives cost price (1000·1+500·4)/1500 = 2. -/
theorem add_position_weighted_average_witness :
    ([((1000 : ℤ), (1 : ℚ)), (500, 4)] ≠ ([] : List (ℤ × ℚ))) ∧
    (∀ x ∈ [((1000 : ℤ), (1 : ℚ)), (500, 4)], 0 < x.1 ∧ 0 ≤ x.2) ∧
    List.Perm [((1000 : ℤ), (1 : ℚ)), (500, 4)] [(500, 4), (1000, 1)] ∧
    (lookupPos ({} : PortfolioConfig).positions "CCC" = none) ∧
    (∃ p p',
      lookupPos (applyAcquisitions {} "CCC" "W" "" "t"
        [((1000 : ℤ), (1 : ℚ)), (500, 4)]).positions "CCC" = some p ∧
      lookupPos (applyAcquisitions {} "CCC" "W" "" "t"
        [(500, 4), (1000, 1)]).positions "CCC" = some p' ∧
      p.cost_price = ([((1000 : ℤ), (1 : ℚ)), (500, 4)].map
          (fun x => (x.1 : ℚ) * x.2)).sum
        / ((([((1000 : ℤ), (1 : ℚ)), (500, 4)].map (fun x => x.1)).sum : ℤ) : ℚ) ∧
      p'.cost_price = p.cost_price) :=
  ⟨by decide, by decide, List.Perm.swap _ _ _, by decide,
   add_position_weighted_average {} "CCC" "W" "" "t" _ _
     (by decide) (by decide) (List.Perm.swap _ _ _) (by decide)⟩

/-! ### C5 — every ledger row keeps a non-negative, non-zero share count -/

/-- The ledger invariant of the spec: shares are never negative and a
zero-share row never exists in the positions map. -/
def ledgerInv (st : PortfolioConfig) : Prop :=
  ∀ kp ∈ st.positions, 0 ≤ kp.2.shares ∧ kp.2.shares ≠ 0

instance (st : PortfolioConfig) : Decidable (ledgerInv st) := by
  rw [ledgerInv]; infer_instance

/-- The positions map after a validated disposal: the held row is erased when
its share count reaches 0, otherwise rewritten with the decremented count. -/
theorem reduce_position_positions_of_held (st : PortfolioConfig) (code : String)
    (n : ℤ) (sp : ℚ) (now : String) (p : Position)
    (hp : lookupPos st.positions code = some p) (hle : ¬ p.shares < n) :
    (reduce_position st code n sp now).1.positions =
      if p.shares - n = 0
      then erasePos st.positions code
      else updatePos st.positions code { p with shares := p.shares - n, last_update := now } := by
  rw [reduce_position, hp]
  simp only [if_neg hle]
  by_cases hz : p.shares - n = 0
  · simp only [if_pos hz, erasePos_updatePos]
  · simp only [if_neg hz]

/-- C5: the ledger operations preserve the invariant — `add_position` with a
positive share count, `reduce_position` on any input, and `update_prices`
all leave every row with `shares ≥ 0` and no row with `shares = 0`. -/
theorem ledger_operations_preserve_invariant (st : PortfolioConfig)
    (code name notes now : String) (shares n : ℤ) (price sp : ℚ)
    (prices : List (String × ℚ)) (h : ledgerInv st) :
    (0 < shares → ledgerInv (add_position st code name shares price notes now)) ∧
    ledgerInv (reduce_position st code n sp now).1 ∧
    ledgerInv (update_prices st prices now) := by
  refine ⟨?_, ?_, ?_⟩
  · intro hsh
    cases hlk : lookupPos st.positions code with
    | none =>
      rw [add_position_of_none st code name shares price notes now hlk]
      intro kp hkp
      rcases List.mem_append.mp hkp with hin | hnew
      · exact h kp hin
      · simp only [List.mem_singleton] at hnew
        subst hnew
        exact ⟨le_of_lt hsh, ne_of_gt hsh⟩
    | some p =>
      have hpmem := h _ (lookupPos_mem hlk)
      have hppos : 0 < p.shares := lt_of_le_of_ne hpmem.1 (Ne.symm hpmem.2)
      have hts : 0 < p.shares + shares := add_pos hppos hsh
      rw [add_position_of_lookup st code name shares price notes now p hlk]
      intro kp hkp
      rcases mem_updatePos hkp with hin | hnew
      · exact h kp hin
      · subst hnew
        exact ⟨le_of_lt hts, ne_of_gt hts⟩
  · cases hlk : lookupPos st.positions code with
    | none =>
      rw [reduce_position, hlk]
      exact h
    | some p =>
      by_cases hlt : p.shares < n
      · rw [reduce_position, hlk]
        simp only [if_pos hlt]
        exact h
      · intro kp hkp
        rw [reduce_position_positions_of_held st code n sp now p hlk hlt] at hkp
        by_cases hz : p.shares - n = 0
        · rw [if_pos hz] at hkp
          exact h kp (mem_erasePos hkp)
        · rw [if_neg hz] at hkp
          rcases mem_updatePos hkp with hin | hnew
          · exact h kp hin
          · subst hnew
            have hpmem := h _ (lookupPos_mem hlk)
            have hge : 0 ≤ p.shares - n := by
              have := not_lt.mp hlt
              omega
            exact ⟨hge, hz⟩
  · rw [update_prices]
    induction prices generalizing st with
    | nil => exact h
    | cons cp rest ih =>
      rw [List.foldl_cons]
      apply ih
      cases hlk : lookupPos st.positions cp.1 with
      | none => simp only [hlk]; exact h
      | some pos =>
        simp only [hlk]
        intro kp hkp
        rcases mem_updatePos hkp with hin | hnew
        · exact h kp hin
        · subst hnew
          have hm := h _ (lookupPos_mem hlk)
          exact ⟨hm.1, hm.2⟩

/-- Witness for C5 at a concrete account holding 100 shares of `"AAA"`:
adding 30 shares, any disposal request, and a price update all preserve
the invariant. -/
theorem ledger_operations_preserve_invariant_witness :
    ledgerInv stW ∧
    ((0 < (30 : ℤ) → ledgerInv (add_position stW "AAA" "Widget" 30 4 "" "t")) ∧
     ledgerInv (reduce_position stW "AAA" 100 3 "t").1 ∧
     ledgerInv (update_prices stW [("AAA", 5)] "t")) :=
  ⟨by decide,
   ledger_operations_preserve_invariant stW "AAA" "Widget" "" "t" 30 100 4 3
     [("AAA", 5)] (by decide)⟩

/-! ### C6 — disposing zero shares is neither rejected nor a cash no-op -/

/-- A concrete held position for the zero-share disposal analysis. -/
def posC6 : Position := { code := "AAA", name := "Widget", shares := 100, cost_price := 2 }

/-- A concrete account with zero percentage fees and the default minimum
commission of 5, holding 100 shares of `"AAA"`. -/
def stC6 : PortfolioConfig :=
  { commission_rate := 0, stamp_duty_rate := 0, min_commission := 5,
    positions := [("AAA", posC6)] }

/-- Counterexample to C6 as stated: disposing zero shares of the held
position is accepted (it is not rejected with either failure), yet
available cash does not stay unchanged — it drops by the minimum
commission (100000 → 99995). -/
theorem reduce_zero_shares_counterexample :
    (reduce_position stC6 "AAA" 0 3 "t").2 = .ok (-5) ∧
    (reduce_position stC6 "AAA" 0 3 "t").1.available_cash = 99995 ∧
    stC6.available_cash = 100000 := by
  refine ⟨?_, ?_, rfl⟩ <;>
    norm_num [reduce_position, stC6, posC6, lookupPos, max_def]

/-- C6 amended: disposing zero shares of a held position is accepted — the
reported net profit is minus the clamped commission `max(0, min_commission)`,
the positions map keeps the row with its share count unchanged (only the
last-update timestamp is rewritten), but available cash decreases by
`max(0, min_commission)`. -/
theorem reduce_zero_shares_behavior (st : PortfolioConfig) (code : String)
    (sp : ℚ) (now : String) (p : Position)
    (hp : lookupPos st.positions code = some p) (hps : 0 < p.shares) :
    (reduce_position st code 0 sp now).2 = .ok (-(max 0 st.min_commission)) ∧
    (reduce_position st code 0 sp now).1.positions
      = updatePos st.positions code { p with last_update := now } ∧
    (reduce_position st code 0 sp now).1.available_cash
      = st.available_cash - max 0 st.min_commission := by
  have hnlt : ¬ p.shares < 0 := by omega
  have hz : ¬ (p.shares - 0 = 0) := by omega
  have hz2 : ¬ (p.shares = 0) := by omega
  rw [reduce_position, hp]
  simp only [if_neg hnlt, Int.cast_zero, zero_mul, if_neg hz, if_neg hz2, sub_zero, zero_sub]
  exact ⟨trivial, trivial, by ring⟩

/-- Witness for the amended C6 at the concrete account `stC6`. -/
theorem reduce_zero_shares_behavior_witness :
    (lookupPos stC6.positions "AAA" = some posC6) ∧ (0 < posC6.shares) ∧
    ((reduce_position stC6 "AAA" 0 3 "t").2 = .ok (-(max 0 stC6.min_commission)) ∧
     (reduce_position stC6 "AAA" 0 3 "t").1.positions
       = updatePos stC6.positions "AAA" { posC6 with last_update := "t" } ∧
     (reduce_position stC6 "AAA" 0 3 "t").1.available_cash
       = stC6.available_cash - max 0 stC6.min_commission) :=
  ⟨by decide, by decide,
   reduce_zero_shares_behavior stC6 "AAA" 3 "t" posC6 (by decide) (by decide)⟩

/-! ### C3 — acquisitions are rejected before overdrawing cash -/

/-- The ledger-layer acquire never touches available cash
(fees and cash movement live in the trade journal). -/
theorem add_position_available_cash (st : PortfolioConfig) (code name : String)
    (shares : ℤ) (price : ℚ) (notes now : String) :
    (add_position st code name shares price notes now).available_cash
      = st.available_cash := by
  cases hlk : lookupPos st.positions code with
  | none => rw [add_position_of_none st code name shares price notes now hlk]
  | some p => rw [add_position_of_lookup st code name shares price notes now p hlk]

/-- C3: a buy/add whose total cost `amount + max(amount×commission_rate,
min_commission)` exceeds available cash fails with `InsufficientCash` and
produces no new state; and whenever a buy/add succeeds, the new available
cash is the old cash minus that total cost and is never negative. -/
theorem record_trade_insufficient_cash (st : PortfolioConfig)
    (code name action : String) (shares : ℤ) (price : ℚ)
    (reason date time now : String)
    (hact : action = "buy" ∨ action = "add") :
    (st.available_cash < (shares : ℚ) * price
        + max ((shares : ℚ) * price * st.commission_rate) st.min_commission →
      record_trade st code name action shares price reason date time now
        = .error .insufficientCash) ∧
    (∀ st' tr, record_trade st code name action shares price reason date time now
        = .ok (st', tr) →
      st'.available_cash = st.available_cash
        - ((shares : ℚ) * price
            + max ((shares : ℚ) * price * st.commission_rate) st.min_commission) ∧
      0 ≤ st'.available_cash) := by
  rw [record_trade]
  simp only [if_pos hact]
  constructor
  · intro hlt
    rw [if_pos (sub_neg.mpr hlt)]
  · intro st' tr h
    by_cases hc : st.available_cash
        - ((shares : ℚ) * price
            + max ((shares : ℚ) * price * st.commission_rate) st.min_commission) < 0
    · rw [if_pos hc] at h
      exact absurd h (by simp)
    · rw [if_neg hc] at h
      simp only [Except.ok.injEq, Prod.mk.injEq] at h
      obtain ⟨hst, _⟩ := h
      rw [← hst]
      constructor
      · simp only [add_position_available_cash]
      · simp only [add_position_available_cash]
        exact not_lt.mp hc

/-- Witness for C3: with 100000 cash, buying 1000 shares at 1000 would cost
1000000 plus commission and is rejected; buying 10 shares at 100 succeeds
and leaves non-negative cash. -/
theorem record_trade_insufficient_cash_witness :
    (("buy" : String) = "buy" ∨ ("buy" : String) = "add") ∧
    ((stW.available_cash < (1000 : ℚ) * 1000
        + max ((1000 : ℚ) * 1000 * stW.commission_rate) stW.min_commission →
      record_trade stW "DDD" "Widget" "buy" 1000 1000 "r" "d" "h" "t"
        = .error .insufficientCash) ∧
     (∀ st' tr, record_trade stW "DDD" "Widget" "buy" 1000 1000 "r" "d" "h" "t"
        = .ok (st', tr) →
      st'.available_cash = stW.available_cash
        - ((1000 : ℚ) * 1000
            + max ((1000 : ℚ) * 1000 * stW.commission_rate) stW.min_commission) ∧
      0 ≤ st'.available_cash)) :=
  ⟨Or.inl rfl,
   record_trade_insufficient_cash stW "DDD" "Widget" "buy" 1000 1000 "r" "d" "h" "t"
     (Or.inl rfl)⟩

/-! ### C9 — daily snapshot diffs against the previous snapshot -/

/-- C9: the recorded daily profit/loss is today's total assets minus the
previous snapshot's, and the daily return % is that difference over the
previous total assets (×100); both are 0 when there is no previous snapshot
or the previous total assets is 0, and the snapshot stores today's total
assets. -/
theorem take_daily_snapshot_diffs (prev : Option DailySnapshot)
    (st : PortfolioConfig) (today : String) :
    ((prev = none ∨ (∃ p, prev = some p ∧ p.total_assets = 0)) →
      (take_daily_snapshot prev st today).daily_profit_loss = 0 ∧
      (take_daily_snapshot prev st today).daily_return_pct = 0) ∧
    (∀ p, prev = some p → p.total_assets ≠ 0 →
      (take_daily_snapshot prev st today).daily_profit_loss
        = st.total_assets - p.total_assets ∧
      (take_daily_snapshot prev st today).daily_return_pct
        = (st.total_assets - p.total_assets) / p.total_assets * 100) ∧
    (take_daily_snapshot prev st today).total_assets = st.total_assets := by
  refine ⟨?_, ?_, ?_⟩
  · intro hz
    rcases hz with rfl | ⟨p, rfl, hz⟩
    · exact ⟨rfl, rfl⟩
    · rw [take_daily_snapshot]
      simp only [if_pos hz]
      exact ⟨trivial, trivial⟩
  · intro p hp hnz
    subst hp
    rw [take_daily_snapshot]
    simp only [if_neg hnz]
    exact ⟨trivial, trivial⟩
  · cases prev with
    | none => rfl
    | some p =>
      rw [take_daily_snapshot]
      by_cases hz : p.total_assets = 0
      · simp only [if_pos hz]
      · simp only [if_neg hz]

/-- The day-1 snapshot of the spec's worked example (total assets 100000). -/
def snapDay1 : DailySnapshot :=
  { date := "2025-01-01", total_assets := 100000, daily_profit_loss := 0,
    daily_return_pct := 0, total_return_pct := 0, positions_snapshot := [] }

/-- The account state on day 2 of the spec's worked example
(all in cash: total assets 102000). -/
def stDay2 : PortfolioConfig := { available_cash := 102000, positions := [] }

/-- Witness for C9 on the spec's example: day-1 assets 100000, day-2
assets 102000 give recorded profit/loss 2000 and return 2.0 %. -/
theorem take_daily_snapshot_diffs_witness :
    (snapDay1.total_assets ≠ 0) ∧
    (take_daily_snapshot (some snapDay1) stDay2 "2025-01-02").daily_profit_loss = 2000 ∧
    (take_daily_snapshot (some snapDay1) stDay2 "2025-01-02").daily_return_pct = 2 := by
  have h := (take_daily_snapshot_diffs (some snapDay1) stDay2 "2025-01-02").2.1
    snapDay1 rfl (by norm_num [snapDay1])
  have hassets : stDay2.total_assets = 102000 := by
    norm_num [stDay2, PortfolioConfig.total_assets, PortfolioConfig.total_market_value]
  refine ⟨by norm_num [snapDay1], ?_, ?_⟩
  · rw [h.1, hassets]
    norm_num [snapDay1]
  · rw [h.2, hassets]
    norm_num [snapDay1]

/-! ### C8 — account document round-trip -/

/-- A position written by `to_dict` reads back field-for-field. -/
theorem position_roundtrip (p : Position) :
    Position.from_dict (Position.to_dict p) = p := by
  cases p
  rfl

/-- Round-trip of the positions mapping, entry by entry. -/
theorem map_position_roundtrip : ∀ l : List (String × Position),
    l.map ((fun kp => (kp.1, Position.from_dict kp.2))
      ∘ (fun kp : String × Position => (kp.1, kp.2.to_dict))) = l
  | [] => rfl
  | kp :: rest => by
    simp only [List.map_cons, Function.comp_apply, position_roundtrip,
      map_position_roundtrip rest]

/-- C8: serialising a `PortfolioConfig` with `to_dict` and re-loading it with
`from_dict` reproduces the position set (every field of every position),
available cash, initial capital, the four risk parameters and the three fee
parameters exactly. -/
theorem config_roundtrip (c : PortfolioConfig) (now : String) :
    (PortfolioConfig.from_dict (PortfolioConfig.to_dict c) now).positions = c.positions ∧
    (PortfolioConfig.from_dict (PortfolioConfig.to_dict c) now).available_cash
      = c.available_cash ∧
    (PortfolioConfig.from_dict (PortfolioConfig.to_dict c) now).initial_capital
      = c.initial_capital ∧
    (PortfolioConfig.from_dict (PortfolioConfig.to_dict c) now).max_single_position_pct
      = c.max_single_position_pct ∧
    (PortfolioConfig.from_dict (PortfolioConfig.to_dict c) now).stop_loss_pct
      = c.stop_loss_pct ∧
    (PortfolioConfig.from_dict (PortfolioConfig.to_dict c) now).take_profit_pct
      = c.take_profit_pct ∧
    (PortfolioConfig.from_dict (PortfolioConfig.to_dict c) now).max_total_position_pct
      = c.max_total_position_pct ∧
    (PortfolioConfig.from_dict (PortfolioConfig.to_dict c) now).commission_rate
      = c.commission_rate ∧
    (PortfolioConfig.from_dict (PortfolioConfig.to_dict c) now).stamp_duty_rate
      = c.stamp_duty_rate ∧
    (PortfolioConfig.from_dict (PortfolioConfig.to_dict c) now).min_commission
      = c.min_commission := by
  refine ⟨?_, rfl, rfl, rfl, rfl, rfl, rfl, rfl, rfl, rfl⟩
  simp only [PortfolioConfig.from_dict, PortfolioConfig.to_dict, Option.getD_some,
    List.map_map]
  exact map_position_roundtrip c.positions

/-! ### C7 — the accuracy backtest -/

/-- The record `get_ai_accuracy` appends for the consecutive snapshot pair
`(d1, s1)`, `(d2, s2)` when day `d1` is graded. -/
def gradeRecord (d1 : String) (s1 : SnapDict) (d2 : String) (s2 : SnapDict) : AccRecord :=
  { date := d1, next_date := d2, prediction := "持有",
    next_day_return := (s2.total_assets.getD 0 - s1.total_assets.getD 0)
      / s1.total_assets.getD 0 * 100,
    is_correct := decide (0 < (s2.total_assets.getD 0 - s1.total_assets.getD 0)
      / s1.total_assets.getD 0 * 100),
    total_assets := s1.total_assets.getD 0 }

theorem accuracy_records_cons_cons (d1 : String) (s1 : SnapDict) (d2 : String)
    (s2 : SnapDict) (rest : List (String × SnapDict)) :
    accuracy_records ((d1, s1) :: (d2, s2) :: rest) =
      (if 0 < s1.total_assets.getD 0 then
         if 0 < (s1.positions_snapshot.getD []).length
         then [gradeRecord d1 s1 d2 s2] else []
       else [])
      ++ accuracy_records ((d2, s2) :: rest) := rfl

/-- Every graded record's date is one of the non-final snapshot dates. -/
theorem mem_accuracy_records_date :
    ∀ {l : List (String × SnapDict)} {r : AccRecord}, r ∈ accuracy_records l →
      r.date ∈ (l.dropLast).map Prod.fst
  | [], _, h => by simp [accuracy_records] at h
  | [_], _, h => by simp [accuracy_records] at h
  | (d1, s1) :: (d2, s2) :: rest, r, h => by
    rw [accuracy_records_cons_cons] at h
    rcases List.mem_append.mp h with hh | ht
    · have hd : r.date = d1 := by
        by_cases h1 : 0 < s1.total_assets.getD 0
        · rw [if_pos h1] at hh
          by_cases h2 : 0 < (s1.positions_snapshot.getD []).length
          · rw [if_pos h2] at hh
            simp only [List.mem_singleton] at hh
            rw [hh]; rfl
          · rw [if_neg h2] at hh; simp at hh
        · rw [if_neg h1] at hh; simp at hh
      rw [hd]
      exact List.mem_cons_self _ _
    · have := mem_accuracy_records_date ht
      exact List.mem_cons_of_mem _ this

/-- A date outside the non-final snapshot dates grades no record. -/
theorem filter_accuracy_records_eq_nil {l : List (String × SnapDict)} {d : String}
    (hd : d ∉ (l.dropLast).map Prod.fst) :
    (accuracy_records l).filter (fun r => r.date = d) = [] := by
  rw [List.filter_eq_nil_iff]
  intro r hr
  simp only [decide_eq_true_eq]
  intro hrd
  exact hd (hrd ▸ mem_accuracy_records_date hr)

theorem mem_map_fst_of_dropLast {l : List (String × SnapDict)} {d : String}
    (h : d ∈ (l.dropLast).map Prod.fst) : d ∈ l.map Prod.fst := by
  obtain ⟨kp, hkp, rfl⟩ := List.mem_map.mp h
  exact List.mem_map.mpr ⟨kp, List.dropLast_subset _ hkp, rfl⟩

/-- The graded records carrying the date of the `i`-th snapshot (for `i` not
last) are exactly: one record grading day `i` against day `i+1` when day `i`
has positive assets and a non-empty position snapshot, and none otherwise. -/
theorem filter_accuracy_records (l : List (String × SnapDict))
    (hnd : (l.map Prod.fst).Nodup) :
    ∀ i (hi : i + 1 < l.length),
    (accuracy_records l).filter
        (fun r => r.date = (l.get ⟨i, Nat.lt_of_succ_lt hi⟩).1)
      = if 0 < ((l.get ⟨i, Nat.lt_of_succ_lt hi⟩).2.total_assets.getD 0) ∧
           0 < ((l.get ⟨i, Nat.lt_of_succ_lt hi⟩).2.positions_snapshot.getD []).length
        then [gradeRecord (l.get ⟨i, Nat.lt_of_succ_lt hi⟩).1
                (l.get ⟨i, Nat.lt_of_succ_lt hi⟩).2
                (l.get ⟨i + 1, hi⟩).1 (l.get ⟨i + 1, hi⟩).2]
        else [] := by
  induction l with
  | nil =>
    intro i hi
    simp at hi
  | cons x tail ih =>
    intro i hi
    cases tail with
    | nil =>
      simp only [List.length_cons, List.length_nil] at hi
      omega
    | cons y rest =>
      obtain ⟨x1, x2⟩ := x
      obtain ⟨y1, y2⟩ := y
      have hx1notin : x1 ∉ ((y1, y2) :: rest).map Prod.fst := by
        have := List.nodup_cons.mp hnd
        exact this.1
      cases i with
      | zero =>
        simp only [List.get]
        rw [accuracy_records_cons_cons, List.filter_append]
        have htail : (accuracy_records ((y1, y2) :: rest)).filter
            (fun r => r.date = x1) = [] := by
          apply filter_accuracy_records_eq_nil
          intro hmem
          exact hx1notin (mem_map_fst_of_dropLast hmem)
        rw [htail, List.append_nil]
        by_cases h1 : 0 < x2.total_assets.getD 0
        · by_cases h2 : 0 < (x2.positions_snapshot.getD []).length
          · rw [if_pos h1, if_pos h2, if_pos ⟨h1, h2⟩]
            simp [gradeRecord]
          · rw [if_pos h1, if_neg h2,
              if_neg (by intro hc; exact h2 hc.2)]
            rfl
        · rw [if_neg h1, if_neg (by intro hc; exact h1 hc.1)]
          rfl
      | succ j =>
        have hj : j + 1 < ((y1, y2) :: rest).length := by
          simp only [List.length_cons] at hi ⊢
          omega
        have hget1 : ((x1, x2) :: (y1, y2) :: rest).get ⟨j + 1, Nat.lt_of_succ_lt hi⟩
            = ((y1, y2) :: rest).get ⟨j, Nat.lt_of_succ_lt hj⟩ := rfl
        have hget2 : ((x1, x2) :: (y1, y2) :: rest).get ⟨j + 1 + 1, hi⟩
            = ((y1, y2) :: rest).get ⟨j + 1, hj⟩ := rfl
        rw [hget1, hget2, accuracy_records_cons_cons, List.filter_append]
        have hdin : (((y1, y2) :: rest).get ⟨j, Nat.lt_of_succ_lt hj⟩).1
            ∈ ((y1, y2) :: rest).map Prod.fst :=
          List.mem_map.mpr ⟨_, List.get_mem _ _ _, rfl⟩
        have hne : x1 ≠ (((y1, y2) :: rest).get ⟨j, Nat.lt_of_succ_lt hj⟩).1 := by
          intro hc
          exact hx1notin (hc ▸ hdin)
        have hhere : (if 0 < x2.total_assets.getD 0 then
              if 0 < (x2.positions_snapshot.getD []).length
              then [gradeRecord x1 x2 y1 y2] else []
            else []).filter
            (fun r => r.date = (((y1, y2) :: rest).get ⟨j, Nat.lt_of_succ_lt hj⟩).1)
            = [] := by
          by_cases h1 : 0 < x2.total_assets.getD 0
          · by_cases h2 : 0 < (x2.positions_snapshot.getD []).length
            · rw [if_pos h1, if_pos h2]
              simp only [List.filter_cons, List.filter_nil, gradeRecord,
                decide_eq_true_eq]
              rw [if_neg hne]
            · rw [if_pos h1, if_neg h2]; rfl
          · rw [if_neg h1]; rfl
        rw [hhere, List.nil_append]
        exact ih (List.nodup_cons.mp hnd).2 j hj

/-- The last snapshot date grades no record. -/
theorem filter_accuracy_records_last (l : List (String × SnapDict))
    (hnd : (l.map Prod.fst).Nodup) (hne : l ≠ []) :
    (accuracy_records l).filter (fun r => r.date = (l.getLast hne).1) = [] := by
  apply filter_accuracy_records_eq_nil
  intro hmem
  obtain ⟨kp, hkp, hfst⟩ := List.mem_map.mp hmem
  have hsplit : l.dropLast ++ [l.getLast hne] = l := List.dropLast_append_getLast hne
  have hnd2 : (l.map Prod.fst).Nodup := hnd
  rw [← hsplit, List.map_append, List.nodup_append] at hnd2
  have hmem1 : (l.getLast hne).1 ∈ l.dropLast.map Prod.fst := by
    rw [← hfst]
    exact List.mem_map.mpr ⟨kp, hkp, rfl⟩
  have hmem2 : (l.getLast hne).1 ∈ [l.getLast hne].map Prod.fst := by simp
  exact hnd2.2.2 hmem1 hmem2

theorem monthGet_bumpMonth : ∀ (acc : List (String × ℕ × ℕ)) (month m : String) (b : Bool),
    monthGet (bumpMonth acc month b) m
      = if month = m
        then ((monthGet acc m).1 + 1,
              if b then (monthGet acc m).2 + 1 else (monthGet acc m).2)
        else monthGet acc m
  | [], month, m, b => by
    by_cases h : month = m <;>
      simp [bumpMonth, monthGet, h]
  | (m1, t, c) :: rest, month, m, b => by
    by_cases h1 : m1 = month
    · rw [bumpMonth, if_pos h1]
      by_cases h2 : m1 = m
      · have hm : month = m := h1 ▸ h2
        rw [monthGet, if_pos h2, if_pos hm, monthGet, if_pos h2]
      · have hm : ¬ month = m := fun hc => h2 (h1 ▸ hc)
        rw [monthGet, if_neg h2, if_neg hm, monthGet, if_neg h2]
    · rw [bumpMonth, if_neg h1]
      by_cases h2 : m1 = m
      · have hm : ¬ month = m := fun hc => h1 (h2 ▸ hc.symm)
        rw [monthGet, if_pos h2, if_neg hm, monthGet, if_pos h2]
      · rw [monthGet, if_neg h2, monthGet_bumpMonth rest month m b, monthGet, if_neg h2]

theorem monthGet_foldl : ∀ (records : List AccRecord) (acc : List (String × ℕ × ℕ))
    (m : String),
    monthGet (records.foldl (fun a r => bumpMonth a (r.date.take 7) r.is_correct) acc) m
      = ((monthGet acc m).1
           + (records.filter (fun r => r.date.take 7 = m)).length,
         (monthGet acc m).2
           + (records.filter (fun r => (r.date.take 7 = m : Bool) && r.is_correct)).length)
  | [], acc, m => by simp
  | r :: rest, acc, m => by
    rw [List.foldl_cons, monthGet_foldl rest _ m, monthGet_bumpMonth]
    by_cases h : r.date.take 7 = m
    · rw [if_pos h]
      by_cases hb : r.is_correct
      · simp [List.filter_cons, h, hb]
        omega
      · simp only [Bool.not_eq_true] at hb
        simp [List.filter_cons, h, hb]
        omega
    · rw [if_neg h]
      simp [List.filter_cons, h]

/-- C7: over the date-sorted snapshot series (distinct dates), a date is
graded as a prediction exactly when it is not the last date, its total
assets are positive and its position snapshot is non-empty, and its single
graded record compares it with the next date; a graded record is correct
exactly when the relative next-day asset change is positive; the overall
accuracy rate is correct ÷ total × 100 (0 with no predictions); and the
monthly tallies count, per `YYYY-MM` date prefix, the graded records and
the correct graded records of that month. -/
theorem get_ai_accuracy_spec (l : List (String × SnapDict))
    (hnd : (l.map Prod.fst).Nodup) :
    (∀ i (hi : i + 1 < l.length),
      (accuracy_records l).filter
          (fun r => r.date = (l.get ⟨i, Nat.lt_of_succ_lt hi⟩).1)
        = if 0 < ((l.get ⟨i, Nat.lt_of_succ_lt hi⟩).2.total_assets.getD 0) ∧
             0 < ((l.get ⟨i, Nat.lt_of_succ_lt hi⟩).2.positions_snapshot.getD []).length
          then [gradeRecord (l.get ⟨i, Nat.lt_of_succ_lt hi⟩).1
                  (l.get ⟨i, Nat.lt_of_succ_lt hi⟩).2
                  (l.get ⟨i + 1, hi⟩).1 (l.get ⟨i + 1, hi⟩).2]
          else []) ∧
    (∀ hne : l ≠ [],
      (accuracy_records l).filter (fun r => r.date = (l.getLast hne).1) = []) ∧
    (∀ d1 s1 d2 s2, (gradeRecord d1 s1 d2 s2).is_correct = true ↔
      0 < (s2.total_assets.getD 0 - s1.total_assets.getD 0) / s1.total_assets.getD 0) ∧
    (accuracy_rate l
      = if total_predictions l = 0 then 0
        else (correct_predictions l : ℚ) / (total_predictions l : ℚ) * 100) ∧
    (∀ m, monthGet (monthly_stats (accuracy_records l)) m
      = (((accuracy_records l).filter (fun r => r.date.take 7 = m)).length,
         ((accuracy_records l).filter
           (fun r => (r.date.take 7 = m : Bool) && r.is_correct)).length)) := by
  refine ⟨filter_accuracy_records l hnd, filter_accuracy_records_last l hnd, ?_, ?_, ?_⟩
  · intro d1 s1 d2 s2
    rw [gradeRecord]
    simp only [decide_eq_true_eq]
    constructor
    · intro h; nlinarith
    · intro h; nlinarith
  · rw [accuracy_rate]
    by_cases h : total_predictions l = 0
    · rw [if_pos h, if_neg (by omega)]
    · rw [if_neg h, if_pos (by omega)]
  · intro m
    rw [monthly_stats, monthGet_foldl]
    simp [monthGet]

/-- The spec's worked backtest series: assets rise 100000→102000 with a
position held on day 1, then fall 102000→101000 with a position held on
day 2. -/
def snapsC7 : List (String × SnapDict) :=
  [("2025-01-01", { total_assets := some 100000,
                    positions_snapshot := some [("AAA", {})] }),
   ("2025-01-02", { total_assets := some 102000,
                    positions_snapshot := some [("AAA", {})] }),
   ("2025-01-03", { total_assets := some 101000,
                    positions_snapshot := some [] })]

/-- Witness for C7 on the three-day example series. -/
theorem get_ai_accuracy_spec_witness :
    ((snapsC7.map Prod.fst).Nodup) ∧
    ((∀ i (hi : i + 1 < snapsC7.length),
      (accuracy_records snapsC7).filter
          (fun r => r.date = (snapsC7.get ⟨i, Nat.lt_of_succ_lt hi⟩).1)
        = if 0 < ((snapsC7.get ⟨i, Nat.lt_of_succ_lt hi⟩).2.total_assets.getD 0) ∧
             0 < ((snapsC7.get ⟨i, Nat.lt_of_succ_lt hi⟩).2.positions_snapshot.getD
                    []).length
          then [gradeRecord (snapsC7.get ⟨i, Nat.lt_of_succ_lt hi⟩).1
                  (snapsC7.get ⟨i, Nat.lt_of_succ_lt hi⟩).2
                  (snapsC7.get ⟨i + 1, hi⟩).1 (snapsC7.get ⟨i + 1, hi⟩).2]
          else []) ∧
    (∀ hne : snapsC7 ≠ [],
      (accuracy_records snapsC7).filter
        (fun r => r.date = (snapsC7.getLast hne).1) = []) ∧
    (∀ d1 s1 d2 s2, (gradeRecord d1 s1 d2 s2).is_correct = true ↔
      0 < (s2.total_assets.getD 0 - s1.total_assets.getD 0) / s1.total_assets.getD 0) ∧
    (accuracy_rate snapsC7
      = if total_predictions snapsC7 = 0 then 0
        else (correct_predictions snapsC7 : ℚ) / (total_predictions snapsC7 : ℚ) * 100) ∧
    (∀ m, monthGet (monthly_stats (accuracy_records snapsC7)) m
      = (((accuracy_records snapsC7).filter (fun r => r.date.take 7 = m)).length,
         ((accuracy_records snapsC7).filter
           (fun r => (r.date.take 7 = m : Bool) && r.is_correct)).length))) :=
  ⟨by decide, get_ai_accuracy_spec snapsC7 (by decide)⟩

/-! ### C10 — dashboard arithmetic vs the loaded account's derived fields -/

theorem get_dashboard_data_position_list (d : ConfigDict) :
    (get_dashboard_data d).position_list
      = (d.positions.getD []).map (fun kp => dashPosition kp.1 kp.2) := rfl

theorem get_dashboard_data_total_market_value (d : ConfigDict) :
    (get_dashboard_data d).total_market_value
      = ((d.positions.getD []).map
          (fun kp => (dashPosition kp.1 kp.2).market_value)).sum := by
  rw [get_dashboard_data]
  simp [List.map_map, Function.comp_def]

theorem get_dashboard_data_total_assets (d : ConfigDict) :
    (get_dashboard_data d).total_assets
      = d.available_cash.getD 0 + (get_dashboard_data d).total_market_value := rfl

/-- Dashboard row and loaded `Position` agree on market value and
profit/loss whenever the document carries a `current_price`. -/
theorem dash_entry_agrees (code : String) (pos : PosDict)
    (h : pos.current_price.isSome = true) :
    (dashPosition code pos).market_value = (Position.from_dict pos).market_value ∧
    (dashPosition code pos).profit_loss = (Position.from_dict pos).profit_loss := by
  obtain ⟨v, hv⟩ := Option.isSome_iff_exists.mp h
  constructor <;>
    simp [dashPosition, Position.from_dict, Position.market_value,
      Position.profit_loss, Position.cost_amount, hv]

/-- C10 amended: the dashboard substitutes the (defaulted) cost price for a
missing `current_price`, making such a row contribute zero profit/loss,
whereas `Position.from_dict` defaults a missing `current_price` to 0, making
the same row's profit/loss minus its cost amount; and whenever every position
of the document carries `current_price` and the document carries
`available_cash`, the dashboard's total market value, total assets and
per-position profit/loss coincide with the derived fields of the
`PortfolioConfig` loaded from the same document. -/
theorem dashboard_vs_config (d : ConfigDict) (now : String) :
    (∀ (code : String) (pos : PosDict), pos.current_price = none →
      (dashPosition code pos).current_price = pos.cost_price.getD 0 ∧
      (dashPosition code pos).profit_loss = 0) ∧
    (∀ pos : PosDict, pos.current_price = none →
      (Position.from_dict pos).profit_loss
        = -((Position.from_dict pos).cost_amount)) ∧
    ((∀ kp ∈ d.positions.getD [], (kp : String × PosDict).2.current_price.isSome = true) →
      d.available_cash.isSome = true →
      (get_dashboard_data d).total_market_value
        = (PortfolioConfig.from_dict d now).total_market_value ∧
      (get_dashboard_data d).total_assets
        = (PortfolioConfig.from_dict d now).total_assets ∧
      (get_dashboard_data d).position_list.map (fun q => q.profit_loss)
        = (PortfolioConfig.from_dict d now).positions.map
            (fun kp => kp.2.profit_loss)) := by
  refine ⟨?_, ?_, ?_⟩
  · intro code pos h
    constructor <;> simp [dashPosition, h]
  · intro pos h
    simp [Position.from_dict, Position.profit_loss, Position.market_value,
      Position.cost_amount, h]
  · intro hall hcash
    have htmv : (get_dashboard_data d).total_market_value
        = (PortfolioConfig.from_dict d now).total_market_value := by
      rw [get_dashboard_data_total_market_value, PortfolioConfig.total_market_value,
        PortfolioConfig.from_dict]
      simp only [List.map_map]
      congr 1
      apply List.map_congr_left
      intro kp hkp
      exact (dash_entry_agrees kp.1 kp.2 (hall kp hkp)).1
    refine ⟨htmv, ?_, ?_⟩
    · rw [get_dashboard_data_total_assets, htmv, PortfolioConfig.total_assets]
      obtain ⟨v, hv⟩ := Option.isSome_iff_exists.mp hcash
      simp [PortfolioConfig.from_dict, hv]
    · rw [get_dashboard_data_position_list, PortfolioConfig.from_dict]
      simp only [List.map_map]
      apply List.map_congr_left
      intro kp hkp
      exact (dash_entry_agrees kp.1 kp.2 (hall kp hkp)).2

/-- A fully-populated persisted position row: 10 shares, cost 1, price 2. -/
def pdC10 : PosDict :=
  { code := some "AAA", name := some "W", shares := some 10, cost_price := some 1,
    current_price := some 2, buy_date := some "", last_update := some "",
    notes := some "" }

/-- A persisted portfolio document whose single position carries
`current_price` but whose `available_cash` field is absent. -/
def dictC10 : ConfigDict := { positions := some [("AAA", pdC10)] }

/-- Counterexample to C10 as stated: in `dictC10` every position carries a
`current_price` field, yet the dashboard's total assets (0 + 20 = 20,
missing cash defaulting to 0) differ from the loaded account's
(100000 + 20 = 100020, missing cash defaulting to 100000) — so presence of
`current_price` on every position does not suffice for agreement. -/
theorem dashboard_vs_config_counterexample :
    ((dictC10.positions.getD []).all (fun kp => kp.2.current_price.isSome) = true) ∧
    (get_dashboard_data dictC10).total_assets = 20 ∧
    (PortfolioConfig.from_dict dictC10 "t").total_assets = 100020 := by
  refine ⟨by decide, ?_, ?_⟩ <;>
    norm_num [get_dashboard_data, dashPosition, dictC10, pdC10,
      PortfolioConfig.from_dict, Position.from_dict, PortfolioConfig.total_assets,
      PortfolioConfig.total_market_value, Position.market_value]

/-- A persisted portfolio document carrying both `available_cash` and a
position with `current_price`. -/
def dictC10W : ConfigDict :=
  { available_cash := some 500, positions := some [("AAA", pdC10)] }

/-- Witness for the amended C10 at the fully-populated document. -/
theorem dashboard_vs_config_witness :
    (∀ kp ∈ dictC10W.positions.getD [],
      (kp : String × PosDict).2.current_price.isSome = true) ∧
    (dictC10W.available_cash.isSome = true) ∧
    ((get_dashboard_data dictC10W).total_market_value
       = (PortfolioConfig.from_dict dictC10W "t").total_market_value ∧
     (get_dashboard_data dictC10W).total_assets
       = (PortfolioConfig.from_dict dictC10W "t").total_assets ∧
     (get_dashboard_data dictC10W).position_list.map (fun q => q.profit_loss)
       = (PortfolioConfig.from_dict dictC10W "t").positions.map
           (fun kp => kp.2.profit_loss)) :=
  ⟨by decide, by decide,
   (dashboard_vs_config dictC10W "t").2.2 (by decide) (by decide)⟩

end StockSim
